import Mathlib

/-!
Verification of the natural-language specification of the
linkedin_company_scrap repository against a shallow embedding of its code.

The embedding below translates, definition by definition, the parts of the
Python source that the checked claims are about:

* company_data_scraper/spiders/sector_based_scraper.py
  (phone plausibility filter, contact-extraction merge stages, per-company
   fan-out/fan-in aggregation, search-result pagination),
* llm_sector_filter.py (classifier response parsing, batch loop,
  collection naming),
* api/services (collection_naming, job_store tail appends, scrapy_runner,
  pipeline_runner),
* company_data_scraper/pipelines.py (Mongo upsert pipeline).

Machine strings are Lean Strings; Python dicts keyed by strings are
association lists; a Python set of strings is a duplicate-free list built
by insert-if-absent; regular-expression full-match tests from the source
are transcribed as explicit character-list parsers.  The places where the
code consumes an HTML response through CSS selectors or a regex findall
are represented by the extracted candidate lists those selectors produce;
everything the code then does with those candidates is transcribed.
-/

namespace LinkedInScrape

/-! ## Generic string helpers (Python `str` / `re` behaviour) -/

/-- Whitespace, modelling Python's regex class backslash-s and str.strip
for the ASCII whitespace the scraped text uses. -/
def isWs (c : Char) : Bool := c.isWhitespace

/-- Decimal digit, modelling the regex class backslash-d on ASCII input. -/
def isDigitCh (c : Char) : Bool := c.isDigit

/-- Python str.strip: drop leading and trailing whitespace. -/
def trimChars (l : List Char) : List Char :=
  ((l.dropWhile isWs).reverse.dropWhile isWs).reverse

/-- Python re.sub(backslash-s+, one space, s): every maximal whitespace run
becomes a single space. -/
def collapseWs : List Char → List Char
  | [] => []
  | [c] => if isWs c then [' '] else [c]
  | c1 :: c2 :: cs =>
    if isWs c1 && isWs c2 then collapseWs (c2 :: cs)
    else (if isWs c1 then ' ' else c1) :: collapseWs (c2 :: cs)

/-- Number of decimal digits in a string (the value of
len(_digits_only(s)) in the spider). -/
def digitCount (s : String) : Nat := (s.data.filter isDigitCh).length

/-- Substring occurrence on character lists (Python `needle in hay`). -/
def subOccurs (needle : List Char) : List Char → Bool
  | [] => needle.isEmpty
  | c :: cs => List.isPrefixOf needle (c :: cs) || subOccurs needle cs

/-- Python `needle in hay` for strings. -/
def containsSub (hay needle : String) : Bool := subOccurs needle.data hay.data

/-- Python str.lower restricted to the code points appearing in the
repository's tables: ASCII letters plus the Turkish uppercase letters the
code mentions.  Python lowers the dotted capital I (U+0130) to the pair
latin small i followed by combining dot above (U+0307). -/
def pyLowerChar (c : Char) : List Char :=
  if c = 'İ' then ['i', '̇']
  else if c = 'Ğ' then ['ğ']
  else if c = 'Ü' then ['ü']
  else if c = 'Ş' then ['ş']
  else if c = 'Ö' then ['ö']
  else if c = 'Ç' then ['ç']
  else [c.toLower]

/-- Python str.lower on a whole string. -/
def pyLower (s : String) : String := ⟨(s.data.map pyLowerChar).flatten⟩

/-- Python str.strip on a whole string. -/
def pyStrip (s : String) : String := ⟨trimChars s.data⟩

/-! ## The phone plausibility filter
(sector_based_scraper.SectorBasedScraperSpider._is_plausible_phone) -/

/-- Full match of the version-number shape, regex
caret d{1,2} dot d{1,3} dollar, on a character list. -/
def isVersionLike (l : List Char) : Bool :=
  let p1 := l.span isDigitCh
  match p1.2 with
  | '.' :: r2 =>
    let p2 := r2.span isDigitCh
    decide (1 ≤ p1.1.length ∧ p1.1.length ≤ 2 ∧
            1 ≤ p2.1.length ∧ p2.1.length ≤ 3) && p2.2.isEmpty
  | _ => false

/-- One IPv4 octet: 1 to 3 leading digits; returns the rest on success. -/
def ipGroup (l : List Char) : Option (List Char) :=
  let p := l.span isDigitCh
  if 1 ≤ p.1.length ∧ p.1.length ≤ 3 then some p.2 else none

/-- After the first octet: n further occurrences of dot-then-octet,
ending the string. -/
def ipRest : Nat → List Char → Bool
  | 0, l => l.isEmpty
  | n + 1, l =>
    match l with
    | '.' :: t =>
      match ipGroup t with
      | some r => ipRest n r
      | none => false
    | _ => false

/-- Full match of the IPv4 shape, regex
caret d{1,3} (dot d{1,3}){3} dollar. -/
def isIpLike (l : List Char) : Bool :=
  match ipGroup l with
  | some r => ipRest 3 r
  | none => false

/-- Full match of the bare numeric range shape, regex
caret d{1,4} dash d{1,4} dollar (employee counts such as 201-500). -/
def isRangeLike (l : List Char) : Bool :=
  let p1 := l.span isDigitCh
  match p1.2 with
  | '-' :: r2 =>
    let p2 := r2.span isDigitCh
    decide (1 ≤ p1.1.length ∧ p1.1.length ≤ 4 ∧
            1 ≤ p2.1.length ∧ p2.1.length ≤ 4) && p2.2.isEmpty
  | _ => false

/-- String form of the range test (the spider applies it both inside the
plausibility filter and as its phone overwrite policy). -/
def isRangeShape (s : String) : Bool := isRangeLike s.data

/-- The contact-context keywords of _is_plausible_phone, transcribed
verbatim from the source file (the file stores the Turkish words in a
doubly-encoded form; the exact characters are kept). -/
def contactKeywords : List String :=
  ["tel", "telefon", "phone", "call", "whatsapp", "ileti≈üim", "contact",
   "m√º≈üteri hizmet", "customer service", "numara", "number", "ara",
   "bize ula≈ü", "reach us", "get in touch", "bize ula≈üƒ±n"]

/-- The separator characters the filter looks for. -/
def sepChars : List Char := [' ', '-', '(', ')', '.', '+', '/']

/-- SectorBasedScraperSpider._is_plausible_phone(phone_candidate,
source, context_text).  Source tags are the strings the callers pass
(linkedin_tel, linkedin_text, website_tel, website_text). -/
def isPlausiblePhone (phone_candidate source context_text : String) : Bool :=
  if phone_candidate = "" then false
  else
    let pc := collapseWs (trimChars phone_candidate.data)
    let digits := pc.filter isDigitCh
    if digits.length < 10 || digits.length > 15 then false
    else if isVersionLike pc then false
    else if isIpLike pc then false
    else if digits.length = 4 then false
    else if isRangeLike pc then false
    else if source = "linkedin_text" || source = "website_text" then
      let hasSeps := pc.any (fun c => sepChars.contains c)
      let hasTrPre := List.isPrefixOf "+90".data pc || List.isPrefixOf "0".data pc
      let trMobilePlain := digits.length = 10 && digits.headD ' ' = '5'
      let trLandline := digits.length = 10 && ['2', '3', '4'].contains (digits.headD ' ')
      let context := pyLower context_text
      let hasCtx := contactKeywords.any (fun kw => containsSub context kw)
      if !(hasTrPre || hasSeps || (trMobilePlain && hasCtx) || (trLandline && hasCtx))
      then false
      else true
    else true

/-! ## Contact extraction merge stages
(sector_based_scraper.parse_website_for_contacts)

The regex/CSS machinery that produces candidate strings from a response is
the unmodelled transport: each stage below receives the candidate list its
selector or findall produced and transcribes everything the Python code
then does with it.  pagePhones carries, with each PHONE_PATTERN match, the
plus-minus-200-character context window the code slices around it. -/

/-- Python re.sub stripping every character that is not a digit, plus,
minus, parenthesis, dot or whitespace, followed by str.strip
(the phone_clean computation). -/
def cleanPhoneChars (s : String) : String :=
  pyStrip ⟨s.data.filter fun c =>
    isDigitCh c || ['+', '-', '(', ')', '.'].contains c || isWs c⟩

/-- phone_clean followed by whitespace collapsing, as in the JSON-LD and
page-text stages. -/
def cleanCollapse (s : String) : String := ⟨collapseWs (cleanPhoneChars s).data⟩

/-- The overwrite guard the spider computes before every phone write:
should_update_phone = not current_phone or re.match(range, current_phone). -/
def shouldUpdatePhone (current : String) : Bool :=
  current = "" || isRangeShape current

/-- Python set insertion (set.add) for a set modelled as a
duplicate-free list. -/
def addIfAbsent (l : List String) (e : String) : List String :=
  if l.contains e then l else l ++ [e]

/-- The in-flight aggregation record, one entry of
self.companies_in_progress (created in parse_company_profile). -/
structure CompanyData where
  company_name : String
  phone : String
  website : String
  emails : List String
  pages_processed : Nat
  total_pages : Nat
  sector : String
  location : String
  location_from_linkedin : String
  deriving Repr, DecidableEq

/-- Candidates extracted from one website response.  The DOM-driven
stages of parse_website_for_contacts that are pure selector plumbing
(data attributes, itemprop, contact-section CSS, form fields, footer,
location) are not needed by any claim and are omitted; the stages below
are the ones the claims cite, transcribed in source order. -/
structure PageExtract where
  jsonLdPhones : List String
  telLinks : List String
  mailtoLinks : List String
  pageEmails : List String
  pagePhones : List (String × String)
  deriving Repr, DecidableEq

/-- Stage 1 of parse_website_for_contacts: phones from JSON-LD blocks. -/
def jsonLdStage (cd : CompanyData) (jsonLdPhones : List String) : CompanyData :=
  if jsonLdPhones.isEmpty then cd
  else if shouldUpdatePhone cd.phone then
    match jsonLdPhones.findSome? (fun p =>
      let c := cleanCollapse p
      if isPlausiblePhone c "website_tel" "json_ld" then some c else none) with
    | some c => { cd with phone := c }
    | none => cd
  else cd

/-- The per-href preprocessing of a tel: or mailto: link:
href.replace(scheme, empty).split(question-mark)[0].strip(). -/
def stripScheme (scheme href : String) : String :=
  pyStrip (((href.replace scheme "").splitOn "?").headD "")

/-- Stage 3a of parse_website_for_contacts (lines 1452-1464): phones from
tel: links.  The guard is computed once, before the loop. -/
def telLinksStage (cd : CompanyData) (telLinks : List String) : CompanyData :=
  if shouldUpdatePhone cd.phone && !telLinks.isEmpty then
    match telLinks.findSome? (fun href =>
      let phone := stripScheme "tel:" href
      let c := cleanPhoneChars phone
      if isPlausiblePhone c "website_tel" "" then some c else none) with
    | some c => { cd with phone := c }
    | none => cd
  else cd

/-- Stage 3b of parse_website_for_contacts: emails from mailto: links. -/
def mailtoStage (cd : CompanyData) (mailtoLinks : List String) : CompanyData :=
  { cd with emails := mailtoLinks.foldl (fun acc href =>
      let email := stripScheme "mailto:" href
      if email ≠ "" && email.data.contains '@' then
        let el := pyLower email
        if ["example.com", "test@", "noreply@"].any (fun skip => containsSub el skip)
        then acc
        else addIfAbsent acc el
      else acc) cd.emails }

/-- The placeholder denylist of the page-text email filter. -/
def emailSkipList : List String :=
  ["example.com", "test@", "noreply@", "no-reply@", "placeholder@",
   "@example", "email@", "mail@"]

/-- One page-text email candidate passes the filter of lines 1560-1579
(already lowercased). -/
def keepPageEmail (email : String) : Bool :=
  if List.isPrefixOf "//".data email.data || !email.data.contains '@' then false
  else if [".png", ".jpg", ".gif", ".css", ".js"].any
      (fun ext => List.isSuffixOf ext.data email.data) then false
  else if emailSkipList.any (fun skip => containsSub email skip) then false
  else
    let parts := email.splitOn "@"
    if parts.length = 2 then
      let localPart := parts.headD ""
      let domain := (parts.drop 1).headD ""
      if localPart.length = 0 then false
      else if !domain.data.contains '.' then false
      else if ((domain.splitOn ".").headD "").length = 0 then false
      else true
    else false

/-- Stage 6a of parse_website_for_contacts: emails matched by
EMAIL_PATTERN anywhere in the page text (the code lowercases and
deduplicates them as a set before filtering). -/
def pageEmailsStage (cd : CompanyData) (pageEmails : List String) : CompanyData :=
  { cd with emails :=
      ((pageEmails.map pyLower).filter keepPageEmail).foldl addIfAbsent cd.emails }

/-- Stage 6b of parse_website_for_contacts (lines 1585-1604): phones
matched by PHONE_PATTERN in the page text, each paired with its context
window.  The guard is computed once, before the loop. -/
def pageTextPhonesStage (cd : CompanyData)
    (pagePhones : List (String × String)) : CompanyData :=
  if pagePhones.isEmpty then cd
  else if shouldUpdatePhone cd.phone then
    match pagePhones.findSome? (fun pc =>
      let c := cleanCollapse pc.1
      if isPlausiblePhone c "website_text" pc.2 then some c else none) with
    | some c => { cd with phone := c }
    | none => cd
  else cd

/-- The whole merge a successful sub-fetch performs on the in-flight
record, stages in source order. -/
def applyPageExtract (cd : CompanyData) (pe : PageExtract) : CompanyData :=
  let cd1 := jsonLdStage cd pe.jsonLdPhones
  let cd2 := telLinksStage cd1 pe.telLinks
  let cd3 := mailtoStage cd2 pe.mailtoLinks
  let cd4 := pageEmailsStage cd3 pe.pageEmails
  pageTextPhonesStage cd4 pe.pagePhones

/-! ## Fan-out/fan-in aggregation
(companies_in_progress, parse_website_for_contacts tail,
handle_website_error) -/

/-- The in-flight table self.companies_in_progress: a dict from
company_key to CompanyData. -/
abbrev InProgressTable := List (String × CompanyData)

/-- Dict lookup: company_key in self.companies_in_progress. -/
def lookupCompany (t : InProgressTable) (k : String) : Option CompanyData :=
  (t.find? fun p => p.1 == k).map (·.2)

/-- Dict deletion: del self.companies_in_progress[company_key]. -/
def removeCompany (t : InProgressTable) (k : String) : InProgressTable :=
  t.filter fun p => !(p.1 == k)

/-- Dict assignment to an existing key (the in-place mutation of the
record the callbacks perform). -/
def updateCompany (t : InProgressTable) (k : String) (cd : CompanyData) :
    InProgressTable :=
  t.map fun p => if p.1 == k then (k, cd) else p

/-- The contact paths the spider fans out over (CONTACT_PATHS). -/
def CONTACT_PATHS : List String :=
  ["/", "/contact", "/iletisim", "/contact-us", "/iletisim-bilgileri",
   "/hakkimizda", "/about", "/about-us"]

/-- The finished lead item (items.LeadItem); fields the spider leaves
unset are none. -/
structure LeadItem where
  sector : String
  location : String
  company_name : String
  phone : String
  emails : List String
  website : Option String
  source : String
  about : Option String
  deriving Repr, DecidableEq

/-- The LeadItem both callbacks build at the flush point. -/
def mkLeadItem (cd : CompanyData) : LeadItem :=
  { sector := cd.sector, location := cd.location,
    company_name := cd.company_name, phone := cd.phone,
    emails := cd.emails, website := some cd.website,
    source := "linkedin", about := none }

/-- parse_website_for_contacts as a table transformer: guard on the key
being tracked, increment pages_processed, merge the extracted contacts,
flush and delete when every fanned-out page has completed. -/
def websiteSuccessStep (t : InProgressTable) (k : String) (pe : PageExtract) :
    InProgressTable × Option LeadItem :=
  match lookupCompany t k with
  | none => (t, none)
  | some cd0 =>
    let cd1 := { cd0 with pages_processed := cd0.pages_processed + 1 }
    let cd2 := applyPageExtract cd1 pe
    if cd2.total_pages ≤ cd2.pages_processed then
      (removeCompany t k, some (mkLeadItem cd2))
    else (updateCompany t k cd2, none)

/-- handle_website_error as a table transformer: an errored or timed-out
sub-fetch merges nothing but still counts as a completion and can be the
one that flushes. -/
def websiteErrorStep (t : InProgressTable) (k : String) :
    InProgressTable × Option LeadItem :=
  match lookupCompany t k with
  | none => (t, none)
  | some cd0 =>
    let cd1 := { cd0 with pages_processed := cd0.pages_processed + 1 }
    if cd1.total_pages ≤ cd1.pages_processed then
      (removeCompany t k, some (mkLeadItem cd1))
    else (updateCompany t k cd1, none)

/-- One sub-fetch completion: either the success callback with its
extracted candidates, or the errback. -/
inductive WebsiteEvent where
  | success (pe : PageExtract)
  | failed
  deriving Repr, DecidableEq

/-- Dispatch of one completion to its callback. -/
def websiteStep (t : InProgressTable) (k : String) :
    WebsiteEvent → InProgressTable × Option LeadItem
  | .success pe => websiteSuccessStep t k pe
  | .failed => websiteErrorStep t k

/-- Run a sequence of completions for one key, counting how many times a
finished lead record is emitted for it. -/
def runCallbacks (t : InProgressTable) (k : String) :
    List WebsiteEvent → InProgressTable × Nat
  | [] => (t, 0)
  | ev :: evs =>
    let r := websiteStep t k ev
    let rest := runCallbacks r.1 k evs
    (rest.1, (if r.2.isSome then 1 else 0) + rest.2)

/-- The AggregationRecord created at fan-out time in
parse_company_profile: pending work fixed to the number of contact
paths. -/
def beginCompany (company_name phone website : String) (emails : List String)
    (sector location : String) : CompanyData :=
  { company_name := company_name, phone := phone, website := website,
    emails := emails, pages_processed := 0,
    total_pages := CONTACT_PATHS.length, sector := sector,
    location := location, location_from_linkedin := location }

/-- The record after one completion has been accounted: both callbacks
increment pages_processed first; the success callback then merges the
extracted contacts, the errback merges nothing. -/
def stepRecord (cd : CompanyData) : WebsiteEvent → CompanyData
  | .success pe => applyPageExtract { cd with pages_processed := cd.pages_processed + 1 } pe
  | .failed => { cd with pages_processed := cd.pages_processed + 1 }

/-- Sample extraction result used to exercise the aggregation run. -/
def sampleExtract : PageExtract :=
  { jsonLdPhones := [], telLinks := ["tel:+902121234567"],
    mailtoLinks := ["mailto:info@acme.example"], pageEmails := [],
    pagePhones := [] }

/-- Sample in-flight table with one freshly fanned-out company. -/
def sampleTable : InProgressTable :=
  [("https://acme.example",
    beginCompany "Acme" "" "https://acme.example" [] "technology" "Istanbul")]

/-- Eight completions (one per contact path), mixing a success and seven
errors. -/
def sampleEvents : List WebsiteEvent :=
  [.success sampleExtract, .failed, .failed, .failed, .failed, .failed,
   .failed, .failed]

/-! ## Search-result pagination (sector_based_scraper.parse_search_results)

The URL lists a page yields are the output of the selector strategies and
_extract_company_urls; the loop below transcribes what the callback does
with them: the new-URL pre-count, the enqueue loop with its early return
on the limit, the consecutive-duplicate counter and the pagination
decision. -/

/-- Python url.rstrip(slash). -/
def stripTrailingSlashes (s : String) : String :=
  ⟨(s.data.reverse.dropWhile (· == '/')).reverse⟩

/-- The duplicate-check key:
company_url.rstrip(slash).replace(slash-about, empty). -/
def baseUrl (s : String) : String :=
  (stripTrailingSlashes s).replace "/about" ""

/-- Per-run pagination state of the spider. -/
structure PaginationState where
  enqueued_count : Nat
  limit : Nat
  consecutive_duplicate_pages : Nat
  max_pages : Nat
  seen : List String
  deriving Repr, DecidableEq

/-- The company-URL loop of parse_search_results: returns the seen set,
the enqueued count and whether the early return (limit reached mid-page)
fired, in which case the whole pagination block is skipped. -/
def enqueueLoop (seen : List String) (enq limit : Nat) :
    List String → List String × Nat × Bool
  | [] => (seen, enq, false)
  | u :: us =>
    if limit ≤ enq then (seen, enq, true)
    else if seen.contains (baseUrl u) then enqueueLoop seen enq limit us
    else enqueueLoop (seen ++ [baseUrl u]) (enq + 1) limit us

/-- max_consecutive_duplicates in parse_search_results. -/
def maxConsecutiveDuplicates : Nat := 10

/-- effective_max_pages = max(self.max_pages, (self.limit // 10) + 30),
with Python floor division. -/
def effectiveMaxPages (max_pages limit : Nat) : Nat :=
  max max_pages (limit / 10 + 30)

/-- One invocation of parse_search_results on the URLs extracted from one
page: returns the updated state and whether the next-page request is
yielded. -/
def parseSearchResults (s : PaginationState) (page : Nat)
    (urls : List String) : PaginationState × Bool :=
  let newUrlsCount := (urls.filter fun u => !s.seen.contains (baseUrl u)).length
  let r := enqueueLoop s.seen s.enqueued_count s.limit urls
  if r.2.2 then
    ({ s with seen := r.1, enqueued_count := r.2.1 }, false)
  else
    let consec := if newUrlsCount = 0 then s.consecutive_duplicate_pages + 1 else 0
    let s' := { s with seen := r.1, enqueued_count := r.2.1,
                       consecutive_duplicate_pages := consec }
    let shouldPaginate := decide (s'.enqueued_count < s.limit)
        && decide (consec < maxConsecutiveDuplicates)
        && decide (page < effectiveMaxPages s.max_pages s.limit)
    (s', shouldPaginate)

/-! ## Classifier response parsing
(llm_sector_filter.LLMSectorFilter._parse_llm_response and the batch
loop of filter_by_sector) -/

/-- A persisted company document as the classifier stage reads it.  The
dict may lack company_name (dict.get returns None); the other fields are
read with an empty-string or empty-list default, so they are carried
directly. -/
structure LeadDoc where
  company_name : Option String
  sector : String
  about : String
  website : String
  location : String
  phone : String
  emails : List String
  deriving Repr, DecidableEq

/-- One element of the JSON array the classifier returns; every field is
read with dict.get and may be absent. -/
structure LLMEntry where
  company_name : Option String
  belongs_to_sector : Option Bool
  confidence : Option ℚ
  reason : Option String
  deriving Repr, DecidableEq

/-- Outcome of json.loads on the cleaned response text: a decode error,
valid JSON that is not an array (the code raises ValueError on it), or an
array of decision objects. -/
inductive LLMResponse where
  | decodeError (msg : String)
  | nonList
  | list (entries : List LLMEntry)
  deriving Repr, DecidableEq

/-- One result row of the classification stage. -/
structure FilterResult where
  company_name : String
  sector : String
  belongs_to_sector : Bool
  confidence : ℚ
  reason : String
  about : String
  website : String
  location : String
  phone : String
  emails : List String
  deriving Repr, DecidableEq

/-- A decision matched back to its company (the dict-get defaults are
belongs false, confidence 0.5, reason empty). -/
def mkMatchedResult (e : LLMEntry) (c : LeadDoc) : FilterResult :=
  { company_name := e.company_name.getD "", sector := c.sector,
    belongs_to_sector := e.belongs_to_sector.getD false,
    confidence := e.confidence.getD (1 / 2), reason := e.reason.getD "",
    about := c.about, website := c.website, location := c.location,
    phone := c.phone, emails := c.emails }

/-- The default row recorded for a company the classifier did not decide
(reason chosen by the caller). -/
def mkDefaultResult (c : LeadDoc) (reason : String) : FilterResult :=
  { company_name := c.company_name.getD "", sector := c.sector,
    belongs_to_sector := false, confidence := 0, reason := reason,
    about := c.about, website := c.website, location := c.location,
    phone := c.phone, emails := c.emails }

/-- The name a decision entry carries (dict.get with empty default). -/
def entryNameOf (e : LLMEntry) : String := e.company_name.getD ""

/-- The name a company document carries (dict.get with empty default). -/
def companyNameOf (c : LeadDoc) : String := c.company_name.getD ""

/-- The company_map dict comprehension keyed by company name: a later
company with the same name overwrites an earlier one. -/
def companyMapLookup (companies : List LeadDoc) (name : String) :
    Option LeadDoc :=
  companies.reverse.find? fun c => companyNameOf c == name

/-- The first matching pass of _parse_llm_response: every decision whose
name is a known company name produces a result row (a decision naming no
company is only logged). -/
def matchedResults (companies : List LeadDoc) (entries : List LLMEntry) :
    List FilterResult :=
  entries.filterMap fun e =>
    (companyMapLookup companies (entryNameOf e)).map fun c =>
      mkMatchedResult e c

/-- The second pass of _parse_llm_response: companies whose name is not
among the already-produced result names get the LLM-response-missing
default row. -/
def missingResults (companies : List LeadDoc) (processedNames : List String) :
    List FilterResult :=
  (companies.filter fun c =>
    match c.company_name with
    | some n => !processedNames.contains n
    | none => true).map fun c => mkDefaultResult c "LLM response missing"

/-- LLMSectorFilter._parse_llm_response.  A JSON decode error is caught
inside and degrades every company to a default row; a parsed non-array
raises ValueError past the function (the error case); an array is matched
back to companies by exact name, names absent from the array getting the
LLM-response-missing default. -/
def parseLLMResponse (resp : LLMResponse) (companies : List LeadDoc) :
    Except String (List FilterResult) :=
  match resp with
  | .decodeError msg =>
    .ok (companies.map fun c =>
      mkDefaultResult c ("JSON parse error: " ++ msg))
  | .nonList => .error "Expected JSON array"
  | .list entries =>
    .ok (matchedResults companies entries
      ++ missingResults companies
           ((matchedResults companies entries).map (·.company_name)))

/-- One iteration of the batch loop in LLMSectorFilter.filter_by_sector:
an exception escaping the parse (or the API call) is caught and every
company of the batch gets an error default row. -/
def processBatch (batch : List LeadDoc) (resp : LLMResponse) :
    List FilterResult :=
  match parseLLMResponse resp batch with
  | .ok rs => rs
  | .error e => batch.map fun c => mkDefaultResult c ("Error: " ++ e)

/-- Sample persisted company used to exercise the parsing stage. -/
def sampleLeadDoc : LeadDoc :=
  { company_name := some "Acme", sector := "technology", about := "iot",
    website := "https://acme.example", location := "Istanbul", phone := "",
    emails := [] }

/-- Sample classifier decision for that company. -/
def sampleEntry : LLMEntry :=
  { company_name := some "Acme", belongs_to_sector := some true,
    confidence := some 1, reason := some "ok" }

/-! ## Collection naming
(api/services/collection_naming.sector_to_ai_collection and
llm_sector_filter.LLMSectorFilter._get_collection_name) -/

/-- The known-sector shortcut table.  The two source files carry
character-for-character identical copies of this dict; it is transcribed
once. -/
def sectorShortcuts : List (String × String) :=
  [("technology", "tech_ai_filter"), ("tech", "tech_ai_filter"),
   ("bt", "tech_ai_filter"), ("bilgi teknolojisi", "tech_ai_filter"),
   ("finance", "finance_ai_filter"), ("finans", "finance_ai_filter"),
   ("healthcare", "healthcare_ai_filter"), ("sağlık", "healthcare_ai_filter"),
   ("manufacturing", "manufacturing_ai_filter"),
   ("imalat", "manufacturing_ai_filter"), ("retail", "retail_ai_filter"),
   ("perakende", "retail_ai_filter"), ("education", "education_ai_filter"),
   ("eğitim", "education_ai_filter")]

/-- The Turkish transliteration table both functions apply after the
underscore replacements; each key and value is a single character, so the
sequence of str.replace calls acts character-wise. -/
def turkishFold (c : Char) : Char :=
  if c = 'ı' then 'i' else if c = 'ğ' then 'g' else if c = 'ü' then 'u'
  else if c = 'ş' then 's' else if c = 'ö' then 'o' else if c = 'ç' then 'c'
  else if c = 'İ' then 'i' else c

/-- The generic slug: spaces and hyphens to underscores, then the Turkish
transliteration. -/
def slugBody (sector_lower : String) : String :=
  ⟨sector_lower.data.map fun c =>
    turkishFold (if c = ' ' || c = '-' then '_' else c)⟩

/-- api/services/collection_naming.sector_to_ai_collection (the API-side
copy guards against None with sector_name or empty-string). -/
def sectorToAiCollection (sector_name : String) : String :=
  let guarded := if sector_name = "" then "" else sector_name
  let sector_lower := pyStrip (pyLower guarded)
  match sectorShortcuts.find? (fun p => p.1 == sector_lower) with
  | some p => p.2
  | none => slugBody sector_lower ++ "_ai_filter"

/-- LLMSectorFilter._get_collection_name. -/
def getCollectionName (sector_name : String) : String :=
  let sector_lower := pyStrip (pyLower sector_name)
  match sectorShortcuts.find? (fun p => p.1 == sector_lower) with
  | some p => p.2
  | none => slugBody sector_lower ++ "_ai_filter"

/-! ## The job pipeline
(api/services/pipeline_runner.run_pipeline_job,
api/services/scrapy_runner.run_sector_scrape,
api/services/llm_runner.run_llm_filter)

Network, subprocess spawning and stream capture are the unmodelled
transport; the discovery stage is driven by the exit code of the external
scrapy process, the classification stage by whether it raised. -/

/-- The job document fields the pipeline mutates. -/
structure Job where
  status : String
  step : String
  error : Option String
  started_at : Option Nat
  finished_at : Option Nat
  deriving Repr, DecidableEq

/-- scrapy_runner.run_sector_scrape: after the subprocess finishes,
a non-zero exit code raises RuntimeError with the exit code in the
message. -/
def runSectorScrape (exit_code : Int) : Except String Unit :=
  if exit_code ≠ 0 then .error ("Scrapy exited with code " ++ toString exit_code)
  else .ok ()

/-- pipeline_runner.run_pipeline_job: discovery stage, then (only when it
did not raise) the classification stage; any exception marks the job
failed with the message verbatim and a finish time; success of both marks
it succeeded with step done.  The returned flag records whether the
classification stage was entered. -/
def runPipelineJob (job : Job) (exit_code : Int)
    (llmResult : Except String Unit) (t0 t1 : Nat) : Job × Bool :=
  let j1 := { job with status := "running", step := "scrape",
                       started_at := some t0 }
  match runSectorScrape exit_code with
  | .error e =>
    ({ j1 with status := "failed", step := "done", error := some e,
               finished_at := some t1 }, false)
  | .ok _ =>
    let j2 := { j1 with status := "running", step := "llm" }
    match llmResult with
    | .error e =>
      ({ j2 with status := "failed", step := "done", error := some e,
                 finished_at := some t1 }, true)
    | .ok _ =>
      ({ j2 with status := "succeeded", step := "done",
                 finished_at := some t1 }, true)

/-- A freshly created job document (JobStore.create_job). -/
def sampleJob : Job :=
  { status := "queued", step := "scrape", error := none,
    started_at := none, finished_at := none }

/-! ## Bounded output tails (api/services/job_store.JobStore.append_tails)

Tails are modelled as character lists; the byte cap is checked against
the UTF-8 encoding length while the trim slices characters, exactly as
the code does. -/

/-- len(s.encode(utf-8)). -/
def utf8Len (l : List Char) : Nat := (l.map Char.utf8Size).sum

/-- Python s[-n:]: for n = 0 the whole string, otherwise the last
n characters. -/
def pySliceLast (n : Nat) (l : List Char) : List Char :=
  if n = 0 then l else l.drop (l.length - n)

/-- One tail update of JobStore.append_tails: concatenate, then trim to
the last limit characters once the UTF-8 byte length exceeds the limit. -/
def appendTail (tail app : List Char) (limit : Nat) : List Char :=
  let s := tail ++ app
  if limit < utf8Len s then pySliceLast limit s else s

/-- JobStore.append_tails on the two tail fields. -/
def appendTails (stdout_tail stderr_tail stdout_app stderr_app : List Char)
    (stdout_limit stderr_limit : Nat) : List Char × List Char :=
  (appendTail stdout_tail stdout_app stdout_limit,
   appendTail stderr_tail stderr_app stderr_limit)

/-! ## Lead persistence (pipelines.MongoPipeline.process_item) -/

/-- A stored lead document. -/
structure StoredDoc where
  sector : String
  location : String
  company_name : String
  phone : String
  website : Option String
  about : String
  source : String
  emails : List String
  created_at : Nat
  updated_at : Option Nat
  deriving Repr, DecidableEq

/-- The upsert filter the pipeline chooses. -/
inductive UpsertKey where
  | byWebsite (w : String)
  | byNameLocation (name location : String)
  deriving Repr, DecidableEq

/-- The website after the empty-string-to-None conversion. -/
def normWebsite (item : LeadItem) : Option String :=
  match item.website with
  | some w => if w = "" then none else some w
  | none => none

/-- Key selection of process_item: the truthy website, else the
(company_name, location) pair. -/
def upsertFilter (item : LeadItem) : UpsertKey :=
  match normWebsite item with
  | some w => .byWebsite w
  | none => .byNameLocation item.company_name item.location

/-- Mongo filter matching for the two filter shapes. -/
def docMatches (k : UpsertKey) (d : StoredDoc) : Bool :=
  match k with
  | .byWebsite w => d.website == some w
  | .byNameLocation n l => d.company_name == n && d.location == l

/-- Mongo dollar-addToSet with dollar-each: values are added in order,
each only when not already present. -/
def addToSetEach (cur new : List String) : List String :=
  new.foldl addIfAbsent cur

/-- The dollar-set / dollar-addToSet update document applied to a
matching stored document. -/
def applyLeadUpdate (item : LeadItem) (now : Nat) (d : StoredDoc) :
    StoredDoc :=
  { d with sector := item.sector, location := item.location,
           company_name := item.company_name, phone := item.phone,
           website := normWebsite item, about := item.about.getD "",
           source := item.source, updated_at := some now,
           emails := addToSetEach d.emails item.emails }

/-- Replace the first document the filter matches (update_one). -/
def updateFirst (p : StoredDoc → Bool) (f : StoredDoc → StoredDoc) :
    List StoredDoc → List StoredDoc
  | [] => []
  | d :: ds => if p d then f d :: ds else d :: updateFirst p f ds

/-- The base document an upsert inserts when nothing matched: the update
operators applied to a fresh document (its fields are all overwritten by
the dollar-set except the email set, which starts empty). -/
def emptyStoredDoc : StoredDoc :=
  { sector := "", location := "", company_name := "", phone := "",
    website := none, about := "", source := "", emails := [],
    created_at := 0, updated_at := none }

/-- MongoPipeline.process_item (item_created is the item's created_at
value, now the update time): find_one on the chosen filter, then
update_one with upsert, setting created_at only on first insertion. -/
def processItem (coll : List StoredDoc) (item : LeadItem)
    (item_created now : Nat) : List StoredDoc :=
  let k := upsertFilter item
  if (coll.find? (docMatches k)).isSome then
    updateFirst (docMatches k) (applyLeadUpdate item now) coll
  else
    coll ++ [{ applyLeadUpdate item now emptyStoredDoc with
               created_at := item_created }]

/-- The email list of the document the upsert filter currently matches
(empty when the key is new). -/
def oldEmails (coll : List StoredDoc) (item : LeadItem) : List String :=
  ((coll.find? (docMatches (upsertFilter item))).map (·.emails)).getD []

/-- Sample lead item used to exercise the pipeline. -/
def sampleItem : LeadItem :=
  { sector := "technology", location := "Istanbul", company_name := "Acme",
    phone := "", emails := ["info@acme.example", "info@acme.example"],
    website := some "https://acme.example", source := "linkedin",
    about := none }

/-! ## Lemmas: digit counts are invariant under the filter's whitespace
normalisation -/

theorem isWs_not_digit {c : Char} (h : isWs c = true) : isDigitCh c = false := by
  unfold isWs Char.isWhitespace at h
  simp only [Bool.or_eq_true, decide_eq_true_eq] at h
  rcases h with ((h | h) | h) | h <;> subst h <;> decide

theorem space_not_digit : isDigitCh ' ' = false := by decide

theorem countP_dropWhile_ws (l : List Char) :
    (l.dropWhile isWs).countP isDigitCh = l.countP isDigitCh := by
  induction l with
  | nil => rfl
  | cons c cs ih =>
    by_cases hc : isWs c = true
    · rw [List.dropWhile_cons, if_pos hc, ih, List.countP_cons,
          isWs_not_digit hc]
      simp
    · rw [List.dropWhile_cons, if_neg hc]

theorem countP_trimChars (l : List Char) :
    (trimChars l).countP isDigitCh = l.countP isDigitCh := by
  unfold trimChars
  rw [List.countP_reverse, countP_dropWhile_ws, List.countP_reverse,
      countP_dropWhile_ws]

theorem countP_collapseWs (l : List Char) :
    (collapseWs l).countP isDigitCh = l.countP isDigitCh := by
  induction l with
  | nil => rfl
  | cons c cs ih =>
    cases cs with
    | nil =>
      by_cases hc : isWs c = true
      · simp [collapseWs, hc, List.countP_cons, isWs_not_digit hc,
              space_not_digit]
      · simp [collapseWs, hc]
    | cons c2 cs2 =>
      by_cases h1 : isWs c = true
      · by_cases h2 : isWs c2 = true
        · simp [collapseWs, h1, h2, ih, List.countP_cons, isWs_not_digit h1]
        · simp [collapseWs, h1, h2, ih, List.countP_cons, isWs_not_digit h1,
                space_not_digit]
      · simp [collapseWs, h1, List.countP_cons, ih]

theorem plausible_digits_eq (s : String) :
    ((collapseWs (trimChars s.data)).filter isDigitCh).length = digitCount s := by
  rw [← List.countP_eq_length_filter, countP_collapseWs, countP_trimChars,
      List.countP_eq_length_filter]
  rfl

theorem plausible_digit_bounds (s src ctx : String)
    (h : isPlausiblePhone s src ctx = true) :
    10 ≤ digitCount s ∧ digitCount s ≤ 15 := by
  by_cases hs : s = ""
  · subst hs; simp [isPlausiblePhone] at h
  · simp only [isPlausiblePhone, if_neg hs] at h
    split at h
    · exact absurd h (by simp)
    · next hcond =>
      simp only [Bool.or_eq_true, decide_eq_true_eq, not_or] at hcond
      have he := plausible_digits_eq s
      omega

/-- C7 (amended): the phone plausibility filter rejects every candidate
whose digit count lies outside the closed interval 10..15; the letters,
at-sign and whitespace-group rejections the original claim mentions do
not exist in the code (see the counterexample). -/
theorem phone_filter_digit_bounds (s src ctx : String)
    (h : digitCount s < 10 ∨ 15 < digitCount s) :
    isPlausiblePhone s src ctx = false := by
  cases hval : isPlausiblePhone s src ctx
  · rfl
  · have hb := plausible_digit_bounds s src ctx hval
    omega

/-- Witness for C7: the year-shaped candidate 2024 has 4 digits and is
rejected. -/
theorem phone_filter_digit_bounds_witness :
    (digitCount "2024" < 10 ∨ 15 < digitCount "2024") ∧
    isPlausiblePhone "2024" "website_tel" "" = false :=
  ⟨by decide, phone_filter_digit_bounds "2024" "website_tel" "" (by decide)⟩

/-- Counterexample for C7 as stated: a candidate that contains letters
and consists of five whitespace-separated groups is nevertheless accepted
by the filter, so the claimed letter / at-sign / group-count rejections
are not implemented. -/
theorem phone_filter_letters_counterexample :
    isPlausiblePhone "ab 0212 123 45 67" "website_text" "" = true ∧
    "ab 0212 123 45 67".data.any Char.isAlpha = true ∧
    ("ab 0212 123 45 67".data.splitOn ' ').length = 5 := by
  refine ⟨by decide, by decide, by decide⟩

/-- C6: on every documented source tag and any context, the plausibility
filter rejects the range 201-500, the year 2024, the version-like 10.001
and the IPv4-like 192.168.1.1, and accepts the two formatted phone
numbers of the specification. -/
theorem phone_filter_examples : ∀ ctx : String,
    (["linkedin_tel", "linkedin_text", "website_tel", "website_text"].all
      fun src =>
        !isPlausiblePhone "201-500" src ctx
        && !isPlausiblePhone "2024" src ctx
        && !isPlausiblePhone "10.001" src ctx
        && !isPlausiblePhone "192.168.1.1" src ctx
        && isPlausiblePhone "+90 212 123 45 67" src ctx
        && isPlausiblePhone "(212) 123-4567" src ctx) = true :=
  fun _ => rfl

/-! ## Lemmas: a plausible phone is never in overwritable shape -/

theorem rangeShape_digits (s : String) (h : isRangeShape s = true) :
    digitCount s ≤ 8 := by
  unfold isRangeShape isRangeLike at h
  simp only [List.span_eq_take_drop] at h
  split at h
  case h_2 => exact absurd h (by simp)
  case h_1 r2 heq =>
    rw [Bool.and_eq_true, decide_eq_true_eq] at h
    obtain ⟨⟨_, hlen1, _, hlen2⟩, hemp⟩ := h
    have hr2e : r2.dropWhile isDigitCh = [] := by
      simpa [List.isEmpty_iff] using hemp
    have hr2 : r2.takeWhile isDigitCh = r2 := by
      conv_rhs => rw [← List.takeWhile_append_dropWhile isDigitCh r2]
      rw [hr2e, List.append_nil]
    have hsplit : s.data = s.data.takeWhile isDigitCh ++ ('-' :: r2) := by
      rw [← heq, List.takeWhile_append_dropWhile]
    have hdc : digitCount s = List.countP isDigitCh s.data :=
      (List.countP_eq_length_filter _ _).symm
    rw [hdc, hsplit, List.countP_append, List.countP_cons]
    have hc1 : List.countP isDigitCh (s.data.takeWhile isDigitCh) ≤ 4 :=
      le_trans (List.countP_le_length _) hlen1
    have hc2 : List.countP isDigitCh r2 ≤ 4 := by
      calc List.countP isDigitCh r2 ≤ r2.length := List.countP_le_length _
        _ = (r2.takeWhile isDigitCh).length := by rw [hr2]
        _ ≤ 4 := hlen2
    rw [show (if isDigitCh '-' = true then 1 else 0) = 0 from by decide]
    omega

theorem plausible_phone_not_overwritable (s src ctx : String)
    (h : isPlausiblePhone s src ctx = true) : shouldUpdatePhone s = false := by
  have hb := plausible_digit_bounds s src ctx h
  have hr : isRangeShape s = false := by
    cases hrv : isRangeShape s
    · rfl
    · have := rangeShape_digits s hrv
      omega
  have hs : ¬s = "" := by
    intro he
    subst he
    simp [isPlausiblePhone] at h
  simp [shouldUpdatePhone, hs, hr]

theorem telLinksStage_phone (cd : CompanyData) (tels : List String) :
    (telLinksStage cd tels).phone = cd.phone ∨
    isPlausiblePhone (telLinksStage cd tels).phone "website_tel" "" = true := by
  unfold telLinksStage
  split
  · split
    case h_1 c heq =>
      right
      obtain ⟨a, _, hfa⟩ := List.exists_of_findSome?_eq_some heq
      dsimp only at hfa
      split at hfa
      · next hpl =>
        cases hfa
        simpa using hpl
      · exact absurd hfa (by simp)
    case h_2 => left; rfl
  · left; rfl

theorem pageTextPhonesStage_phone (cd : CompanyData)
    (pps : List (String × String)) :
    (pageTextPhonesStage cd pps).phone = cd.phone ∨
    ∃ ctx, isPlausiblePhone (pageTextPhonesStage cd pps).phone
      "website_text" ctx = true := by
  unfold pageTextPhonesStage
  split
  · left; rfl
  · split
    · split
      case h_1 c heq =>
        right
        obtain ⟨a, _, hfa⟩ := List.exists_of_findSome?_eq_some heq
        dsimp only at hfa
        split at hfa
        · next hpl =>
          cases hfa
          exact ⟨a.2, by simpa using hpl⟩
        · exact absurd hfa (by simp)
      case h_2 => left; rfl
    · left; rfl

/-- C8: at the two cited merge points (tel: links, page-text matches) the
stored phone is replaced only when the overwrite guard holds, the guard
holds exactly when the stored phone is empty or a bare numeric range, and
a phone written by either stage can never be overwritten later, so the
first plausible value found is kept. -/
theorem phone_overwrite_policy (cd : CompanyData) (tels : List String)
    (pps : List (String × String)) :
    (shouldUpdatePhone cd.phone
      = (decide (cd.phone = "") || isRangeShape cd.phone))
    ∧ (shouldUpdatePhone cd.phone = false →
        (telLinksStage cd tels).phone = cd.phone
        ∧ (pageTextPhonesStage cd pps).phone = cd.phone)
    ∧ ((telLinksStage cd tels).phone ≠ cd.phone →
        shouldUpdatePhone (telLinksStage cd tels).phone = false)
    ∧ ((pageTextPhonesStage cd pps).phone ≠ cd.phone →
        shouldUpdatePhone (pageTextPhonesStage cd pps).phone = false) := by
  refine ⟨rfl, ?_, ?_, ?_⟩
  · intro h
    constructor
    · simp [telLinksStage, h]
    · simp [pageTextPhonesStage, h]
  · intro hne
    rcases telLinksStage_phone cd tels with h | h
    · exact absurd h hne
    · exact plausible_phone_not_overwritable _ _ _ h
  · intro hne
    rcases pageTextPhonesStage_phone cd pps with h | ⟨ctx, h⟩
    · exact absurd h hne
    · exact plausible_phone_not_overwritable _ _ _ h

/-- Witness for C8: a record holding the employee-range bleed-through
1-10 is overwritable, and a record holding a real phone is not touched by
a later candidate. -/
theorem phone_overwrite_policy_witness :
    (shouldUpdatePhone (beginCompany "A" "1-10" "w" [] "s" "l").phone
      = (decide ((beginCompany "A" "1-10" "w" [] "s" "l").phone = "")
         || isRangeShape (beginCompany "A" "1-10" "w" [] "s" "l").phone))
    ∧ (telLinksStage (beginCompany "A" "+90 212 123 45 67" "w" [] "s" "l")
        ["tel:+15550000000"]).phone
      = (beginCompany "A" "+90 212 123 45 67" "w" [] "s" "l").phone :=
  ⟨(phone_overwrite_policy (beginCompany "A" "1-10" "w" [] "s" "l")
      [] []).1,
   ((phone_overwrite_policy (beginCompany "A" "+90 212 123 45 67" "w" [] "s" "l")
      ["tel:+15550000000"] []).2.1 (by decide)).1⟩

/-! ## Lemmas: the merge stages never touch the completion counters -/

theorem jsonLdStage_pages (cd : CompanyData) (ps : List String) :
    (jsonLdStage cd ps).pages_processed = cd.pages_processed := by
  unfold jsonLdStage
  repeat' split
  all_goals rfl

theorem jsonLdStage_total (cd : CompanyData) (ps : List String) :
    (jsonLdStage cd ps).total_pages = cd.total_pages := by
  unfold jsonLdStage
  repeat' split
  all_goals rfl

theorem telLinksStage_pages (cd : CompanyData) (tels : List String) :
    (telLinksStage cd tels).pages_processed = cd.pages_processed := by
  unfold telLinksStage
  repeat' split
  all_goals rfl

theorem telLinksStage_total (cd : CompanyData) (tels : List String) :
    (telLinksStage cd tels).total_pages = cd.total_pages := by
  unfold telLinksStage
  repeat' split
  all_goals rfl

theorem mailtoStage_pages (cd : CompanyData) (ms : List String) :
    (mailtoStage cd ms).pages_processed = cd.pages_processed := rfl

theorem mailtoStage_total (cd : CompanyData) (ms : List String) :
    (mailtoStage cd ms).total_pages = cd.total_pages := rfl

theorem pageEmailsStage_pages (cd : CompanyData) (es : List String) :
    (pageEmailsStage cd es).pages_processed = cd.pages_processed := rfl

theorem pageEmailsStage_total (cd : CompanyData) (es : List String) :
    (pageEmailsStage cd es).total_pages = cd.total_pages := rfl

theorem pageTextPhonesStage_pages (cd : CompanyData)
    (pps : List (String × String)) :
    (pageTextPhonesStage cd pps).pages_processed = cd.pages_processed := by
  unfold pageTextPhonesStage
  repeat' split
  all_goals rfl

theorem pageTextPhonesStage_total (cd : CompanyData)
    (pps : List (String × String)) :
    (pageTextPhonesStage cd pps).total_pages = cd.total_pages := by
  unfold pageTextPhonesStage
  repeat' split
  all_goals rfl

theorem applyPageExtract_pages (cd : CompanyData) (pe : PageExtract) :
    (applyPageExtract cd pe).pages_processed = cd.pages_processed := by
  simp only [applyPageExtract]
  rw [pageTextPhonesStage_pages, pageEmailsStage_pages, mailtoStage_pages,
      telLinksStage_pages, jsonLdStage_pages]

theorem applyPageExtract_total (cd : CompanyData) (pe : PageExtract) :
    (applyPageExtract cd pe).total_pages = cd.total_pages := by
  simp only [applyPageExtract]
  rw [pageTextPhonesStage_total, pageEmailsStage_total, mailtoStage_total,
      telLinksStage_total, jsonLdStage_total]

theorem stepRecord_pages (cd : CompanyData) (ev : WebsiteEvent) :
    (stepRecord cd ev).pages_processed = cd.pages_processed + 1 := by
  cases ev
  · simp [stepRecord, applyPageExtract_pages]
  · rfl

theorem stepRecord_total (cd : CompanyData) (ev : WebsiteEvent) :
    (stepRecord cd ev).total_pages = cd.total_pages := by
  cases ev
  · simp [stepRecord, applyPageExtract_total]
  · rfl

/-! ## Lemmas: the in-flight table behaves as a dict -/

theorem lookupCompany_remove (t : InProgressTable) (k : String) :
    lookupCompany (removeCompany t k) k = none := by
  induction t with
  | nil => rfl
  | cons p t ih =>
    cases hpk : (p.1 == k) with
    | true =>
      simp only [removeCompany, List.filter_cons, hpk, Bool.not_true,
        Bool.false_eq_true, if_false]
      exact ih
    | false =>
      simp only [removeCompany, List.filter_cons, hpk, Bool.not_false,
        if_true]
      simp only [lookupCompany, List.find?_cons, hpk]
      exact ih

theorem lookupCompany_update (t : InProgressTable) (k : String)
    (cd cd' : CompanyData) (h : lookupCompany t k = some cd) :
    lookupCompany (updateCompany t k cd') k = some cd' := by
  induction t with
  | nil => simp [lookupCompany] at h
  | cons p t ih =>
    cases hpk : (p.1 == k) with
    | true =>
      have hhead : updateCompany (p :: t) k cd' = (k, cd') :: updateCompany t k cd' := by
        simp only [updateCompany, List.map_cons]
        rw [if_pos hpk]
      rw [hhead]
      simp [lookupCompany, List.find?_cons]
    | false =>
      have hhead : updateCompany (p :: t) k cd' = p :: updateCompany t k cd' := by
        simp only [updateCompany, List.map_cons]
        rw [if_neg (by simp [hpk])]
      rw [hhead]
      simp only [lookupCompany, List.find?_cons, hpk] at h ⊢
      exact ih h

/-! ## Lemmas: one completion, one run -/

theorem websiteStep_absent (t : InProgressTable) (k : String)
    (ev : WebsiteEvent) (h : lookupCompany t k = none) :
    websiteStep t k ev = (t, none) := by
  cases ev <;>
    simp [websiteStep, websiteSuccessStep, websiteErrorStep, h]

theorem websiteStep_present (t : InProgressTable) (k : String)
    (ev : WebsiteEvent) (cd : CompanyData)
    (h : lookupCompany t k = some cd) :
    websiteStep t k ev =
      if (stepRecord cd ev).total_pages ≤ (stepRecord cd ev).pages_processed
      then (removeCompany t k, some (mkLeadItem (stepRecord cd ev)))
      else (updateCompany t k (stepRecord cd ev), none) := by
  cases ev <;>
    simp [websiteStep, websiteSuccessStep, websiteErrorStep, h, stepRecord]

theorem runCallbacks_absent (k : String) (evs : List WebsiteEvent) :
    ∀ t, lookupCompany t k = none → runCallbacks t k evs = (t, 0) := by
  induction evs with
  | nil => intro t _; rfl
  | cons ev evs ih =>
    intro t h
    simp [runCallbacks, websiteStep_absent t k ev h, ih t h]

theorem runCallbacks_run (k : String) :
    ∀ (evs : List WebsiteEvent) (t : InProgressTable) (cd : CompanyData),
    lookupCompany t k = some cd →
    cd.pages_processed < cd.total_pages →
    ((cd.total_pages ≤ cd.pages_processed + evs.length →
        (runCallbacks t k evs).2 = 1 ∧
        lookupCompany (runCallbacks t k evs).1 k = none)
     ∧ (cd.pages_processed + evs.length < cd.total_pages →
        (runCallbacks t k evs).2 = 0 ∧
        ∃ cd', lookupCompany (runCallbacks t k evs).1 k = some cd' ∧
          cd'.pages_processed = cd.pages_processed + evs.length ∧
          cd'.total_pages = cd.total_pages)) := by
  intro evs
  induction evs with
  | nil =>
    intro t cd hk hlt
    constructor
    · intro hge
      simp only [List.length_nil, Nat.add_zero] at hge
      omega
    · intro _
      exact ⟨rfl, cd, hk, by simp, rfl⟩
  | cons ev evs ih =>
    intro t cd hk hlt
    have hstep := websiteStep_present t k ev cd hk
    have h1p := stepRecord_pages cd ev
    have h1t := stepRecord_total cd ev
    by_cases hfl : (stepRecord cd ev).total_pages ≤ (stepRecord cd ev).pages_processed
    · rw [if_pos hfl] at hstep
      have habs := lookupCompany_remove t k
      have hrest := runCallbacks_absent k evs (removeCompany t k) habs
      have hrun : runCallbacks t k (ev :: evs) = (removeCompany t k, 1) := by
        simp [runCallbacks, hstep, hrest]
      constructor
      · intro _
        rw [hrun]
        exact ⟨rfl, habs⟩
      · intro hlt2
        simp only [List.length_cons] at hlt2
        omega
    · rw [if_neg hfl] at hstep
      have hup := lookupCompany_update t k cd (stepRecord cd ev) hk
      have hlt1 : (stepRecord cd ev).pages_processed < (stepRecord cd ev).total_pages := by
        omega
      have IH := ih (updateCompany t k (stepRecord cd ev)) (stepRecord cd ev) hup hlt1
      have hrun : runCallbacks t k (ev :: evs) =
          ((runCallbacks (updateCompany t k (stepRecord cd ev)) k evs).1,
           (runCallbacks (updateCompany t k (stepRecord cd ev)) k evs).2) := by
        simp [runCallbacks, hstep]
      constructor
      · intro hge
        simp only [List.length_cons] at hge
        have := IH.1 (by omega)
        rw [hrun]
        exact this
      · intro hlt2
        simp only [List.length_cons] at hlt2
        obtain ⟨hz, cd', hcd', hp', ht'⟩ := IH.2 (by omega)
        rw [hrun]
        refine ⟨hz, cd', hcd', ?_, ?_⟩
        · simp only [List.length_cons]
          omega
        · omega

/-- C1: when a company is fanned out with pages_processed zero over a
positive number of contact paths and exactly that many sub-fetch
completions arrive (successes or errors in any order), the finished lead
record is emitted exactly once, precisely at the last completion; every
proper prefix of the completions emits nothing and leaves the in-flight
record with pages_processed equal to the number of completions observed,
and at the single flush point the key is removed from the table. -/
theorem aggregation_flushes_exactly_once
    (t : InProgressTable) (k : String) (cd : CompanyData)
    (evs : List WebsiteEvent)
    (hk : lookupCompany t k = some cd)
    (h0 : cd.pages_processed = 0)
    (hpos : 0 < cd.total_pages)
    (hlen : evs.length = cd.total_pages) :
    (runCallbacks t k evs).2 = 1
    ∧ lookupCompany (runCallbacks t k evs).1 k = none
    ∧ ∀ m, m < cd.total_pages →
        (runCallbacks t k (evs.take m)).2 = 0
        ∧ ∃ cd', lookupCompany (runCallbacks t k (evs.take m)).1 k = some cd'
            ∧ cd'.pages_processed = m
            ∧ cd'.total_pages = cd.total_pages := by
  have hlt : cd.pages_processed < cd.total_pages := by omega
  have hmain := (runCallbacks_run k evs t cd hk hlt).1 (by omega)
  refine ⟨hmain.1, hmain.2, ?_⟩
  intro m hm
  have htake : (evs.take m).length = m := by
    rw [List.length_take]
    omega
  have hpart := (runCallbacks_run k (evs.take m) t cd hk hlt).2 (by omega)
  obtain ⟨hz, cd', hcd', hp', ht'⟩ := hpart
  exact ⟨hz, cd', hcd', by omega, ht'⟩

/-- Witness for C1: the sample company fanned out over the eight contact
paths, completed by one successful fetch and seven errors, is flushed
exactly once and leaves no in-flight record. -/
theorem aggregation_flushes_exactly_once_witness :
    (runCallbacks sampleTable "https://acme.example" sampleEvents).2 = 1
    ∧ lookupCompany
        (runCallbacks sampleTable "https://acme.example" sampleEvents).1
        "https://acme.example" = none := by
  have h := aggregation_flushes_exactly_once sampleTable "https://acme.example"
    (beginCompany "Acme" "" "https://acme.example" [] "technology" "Istanbul")
    sampleEvents rfl rfl (by decide) (by decide)
  exact ⟨h.1, h.2.1⟩

/-! ## Lemmas: pagination -/

theorem enqueueLoop_early (limit : Nat) :
    ∀ (urls seen : List String) (enq : Nat),
    (enqueueLoop seen enq limit urls).2.2 = true →
    limit ≤ (enqueueLoop seen enq limit urls).2.1 := by
  intro urls
  induction urls with
  | nil => intro seen enq h; simp [enqueueLoop] at h
  | cons u us ih =>
    intro seen enq h
    unfold enqueueLoop at h ⊢
    by_cases hl : limit ≤ enq
    · rw [if_pos hl] at h ⊢
      exact hl
    · rw [if_neg hl] at h ⊢
      by_cases hs : (seen.contains (baseUrl u)) = true
      · rw [if_pos hs] at h ⊢
        exact ih seen enq h
      · rw [if_neg hs] at h ⊢
        exact ih _ _ h

/-- C2 (amended): after processing a page, the next-page request is
yielded exactly when the post-page enqueued count is below the limit, the
consecutive-duplicate counter is below 10 and the page number is below
effective_max_pages, which the code computes as
max(configured_max_pages, limit / 10 + 30) with floor division; whenever
the limit is not reached mid-page, the consecutive-duplicate counter
increments exactly when the page yielded zero new URLs and resets to zero
otherwise (when the limit is reached mid-page the counter is left
untouched and no next page is requested). -/
theorem pagination_continuation (s : PaginationState) (page : Nat)
    (urls : List String) :
    ((parseSearchResults s page urls).2 = true ↔
      ((parseSearchResults s page urls).1.enqueued_count < s.limit
        ∧ (parseSearchResults s page urls).1.consecutive_duplicate_pages < 10
        ∧ page < effectiveMaxPages s.max_pages s.limit))
    ∧ ((enqueueLoop s.seen s.enqueued_count s.limit urls).2.2 = false →
        (parseSearchResults s page urls).1.consecutive_duplicate_pages =
          if (urls.filter fun u => !s.seen.contains (baseUrl u)).length = 0
          then s.consecutive_duplicate_pages + 1 else 0) := by
  by_cases he : (enqueueLoop s.seen s.enqueued_count s.limit urls).2.2 = true
  · have hge := enqueueLoop_early s.limit urls s.seen s.enqueued_count he
    constructor
    · simp only [parseSearchResults, if_pos he]
      constructor
      · intro h
        exact absurd h (by simp)
      · intro ⟨h1, _, _⟩
        omega
    · intro hne
      exact absurd he (by simp [hne])
  · have hne : (enqueueLoop s.seen s.enqueued_count s.limit urls).2.2 = false := by
      simpa using he
    constructor
    · simp only [parseSearchResults, if_neg he, maxConsecutiveDuplicates]
      simp [Bool.and_eq_true, and_assoc]
    · intro _
      simp only [parseSearchResults, if_neg he]

/-- Witness for C2: a first page with one fresh company URL resets the
duplicate counter to zero. -/
theorem pagination_continuation_witness :
    (parseSearchResults
      { enqueued_count := 0, limit := 5, consecutive_duplicate_pages := 3,
        max_pages := 20, seen := [] } 1
      ["https://www.linkedin.com/company/acme"]).1.consecutive_duplicate_pages
      = 0 := by
  have h := (pagination_continuation
    { enqueued_count := 0, limit := 5, consecutive_duplicate_pages := 3,
      max_pages := 20, seen := [] } 1
    ["https://www.linkedin.com/company/acme"]).2 (by decide)
  rw [h, if_neg (by decide)]

/-- Counterexample for C2 as stated: the claimed formula
max(configured_max_pages, ceil(limit / results_per_page) + buffer) agrees
with the code's max(configured_max_pages, limit / 10 + 30) for no
constant buffer, because the code uses floor division: at limit 10 the
buffer would have to be 30, and then at limit 5 the ceiling formula gives
31 while the code gives 30. -/
theorem pagination_ceil_counterexample :
    ¬ ∃ b : Nat, ∀ lim mp : Nat,
      effectiveMaxPages mp lim = max mp ((lim + 9) / 10 + b) := by
  rintro ⟨b, h⟩
  have h1 := h 10 0
  have h2 := h 5 0
  simp [effectiveMaxPages] at h1 h2
  omega

/-- C10: the API-side collection naming function and the classifier-side
one agree on every sector name: same shortcut table, same
lowercase-strip normalisation, same underscore and Turkish-character
replacements, same suffix. -/
theorem collection_naming_agree :
    ∀ s : String, sectorToAiCollection s = getCollectionName s := by
  intro s
  unfold sectorToAiCollection getCollectionName
  by_cases h : s = ""
  · subst h; rfl
  · simp [h]

/-- C4: a non-zero exit code of the external discovery process makes the
discovery stage raise, so the job ends failed with the exit-code message
verbatim and a finish time, and the classification stage is never
entered; when both stages complete, the job ends succeeded with step
done. -/
theorem pipeline_failure_propagation (job : Job) (exit_code : Int)
    (llmResult : Except String Unit) (t0 t1 : Nat) :
    (exit_code ≠ 0 →
      (runPipelineJob job exit_code llmResult t0 t1).1.status = "failed"
      ∧ (runPipelineJob job exit_code llmResult t0 t1).1.error
          = some ("Scrapy exited with code " ++ toString exit_code)
      ∧ (runPipelineJob job exit_code llmResult t0 t1).1.finished_at = some t1
      ∧ (runPipelineJob job exit_code llmResult t0 t1).2 = false)
    ∧ (exit_code = 0 → llmResult = .ok () →
      (runPipelineJob job exit_code llmResult t0 t1).1.status = "succeeded"
      ∧ (runPipelineJob job exit_code llmResult t0 t1).1.step = "done"
      ∧ (runPipelineJob job exit_code llmResult t0 t1).1.finished_at = some t1
      ∧ (runPipelineJob job exit_code llmResult t0 t1).2 = true) := by
  constructor
  · intro hnz
    simp [runPipelineJob, runSectorScrape, hnz]
  · intro hz hok
    subst hz
    subst hok
    simp [runPipelineJob, runSectorScrape]

/-- Witness for C4: exit code 2 fails the job and skips classification;
exit code 0 with a clean classification stage succeeds it. -/
theorem pipeline_failure_propagation_witness :
    ((runPipelineJob sampleJob 2 (.ok ()) 0 1).1.status = "failed"
      ∧ (runPipelineJob sampleJob 2 (.ok ()) 0 1).1.error
          = some "Scrapy exited with code 2"
      ∧ (runPipelineJob sampleJob 2 (.ok ()) 0 1).2 = false)
    ∧ (runPipelineJob sampleJob 0 (.ok ()) 0 1).1.status = "succeeded" := by
  have h1 := (pipeline_failure_propagation sampleJob 2 (.ok ()) 0 1).1 (by decide)
  have h2 := (pipeline_failure_propagation sampleJob 0 (.ok ()) 0 1).2 rfl rfl
  exact ⟨⟨h1.1, h1.2.1, h1.2.2.2⟩, h2.1⟩

/-! ## Lemmas: bounded tails -/

theorem length_le_utf8Len (l : List Char) : l.length ≤ utf8Len l := by
  induction l with
  | nil => simp [utf8Len]
  | cons c cs ih =>
    have hc := Char.utf8Size_pos c
    simp only [utf8Len, List.map_cons, List.sum_cons, List.length_cons]
    simp only [utf8Len] at ih
    omega

theorem appendTail_length (tail app : List Char) (limit : Nat)
    (h : 0 < limit) : (appendTail tail app limit).length ≤ limit := by
  unfold appendTail
  dsimp only
  split
  · unfold pySliceLast
    rw [if_neg (by omega)]
    rw [List.length_drop]
    omega
  · next hle =>
    have := length_le_utf8Len (tail ++ app)
    omega

theorem appendTail_isSuffix (tail app : List Char) (limit : Nat) :
    (appendTail tail app limit) <:+ tail ++ app := by
  unfold appendTail
  dsimp only
  split
  · unfold pySliceLast
    split
    · exact List.suffix_refl _
    · exact List.drop_suffix _ _
  · exact List.suffix_refl _

/-- C9 (amended): after append_tails each stored tail is a suffix of the
previous tail plus the appended text (oldest characters dropped) and
holds at most the configured cap in characters; the UTF-8 byte length of
the stored tail can exceed the byte cap, because the trim slices
characters, not bytes (see the counterexample). -/
theorem append_tails_bounds
    (stdout_tail stderr_tail stdout_app stderr_app : List Char)
    (lim1 lim2 : Nat) (h1 : 0 < lim1) (h2 : 0 < lim2) :
    ((appendTails stdout_tail stderr_tail stdout_app stderr_app lim1 lim2).1.length ≤ lim1
      ∧ (appendTails stdout_tail stderr_tail stdout_app stderr_app lim1 lim2).2.length ≤ lim2)
    ∧ ((appendTails stdout_tail stderr_tail stdout_app stderr_app lim1 lim2).1
        <:+ stdout_tail ++ stdout_app
      ∧ (appendTails stdout_tail stderr_tail stdout_app stderr_app lim1 lim2).2
        <:+ stderr_tail ++ stderr_app) :=
  ⟨⟨appendTail_length _ _ _ h1, appendTail_length _ _ _ h2⟩,
   appendTail_isSuffix _ _ _, appendTail_isSuffix _ _ _⟩

/-- Witness for C9: appending three characters under a cap of two keeps
at most two characters, a suffix of the appended text. -/
theorem append_tails_bounds_witness :
    (appendTails [] [] ['a', 'b', 'c'] [] 2 2).1.length ≤ 2
    ∧ (appendTails [] [] ['a', 'b', 'c'] [] 2 2).1 <:+ [] ++ ['a', 'b', 'c'] :=
  ⟨((append_tails_bounds [] [] ['a', 'b', 'c'] [] 2 2 (by decide) (by decide)).1).1,
   ((append_tails_bounds [] [] ['a', 'b', 'c'] [] 2 2 (by decide) (by decide)).2).1⟩

/-- Counterexample for C9 as stated: two two-byte characters under a
byte cap of two survive the trim whole, so the stored tail holds four
UTF-8 bytes, more than the configured cap. -/
theorem append_tails_byte_counterexample :
    utf8Len ((appendTails [] [] ['é', 'é'] [] 2 2).1) = 4 ∧ 2 < 4 := by
  exact ⟨by decide, by decide⟩

/-! ## Lemmas: email set union -/

theorem mem_addIfAbsent (l : List String) (e x : String) :
    x ∈ addIfAbsent l e ↔ x ∈ l ∨ x = e := by
  unfold addIfAbsent
  split
  · next hc =>
    have he : e ∈ l := by simpa using hc
    constructor
    · exact Or.inl
    · rintro (hx | rfl)
      · exact hx
      · exact he
  · simp [List.mem_append]

theorem nodup_addIfAbsent (l : List String) (e : String) (h : l.Nodup) :
    (addIfAbsent l e).Nodup := by
  unfold addIfAbsent
  split
  · exact h
  · next hc =>
    have he : e ∉ l := by simpa using hc
    simp [List.nodup_append, h, he]

theorem mem_addToSetEach (new : List String) :
    ∀ (cur : List String) (x : String),
    (x ∈ addToSetEach cur new ↔ x ∈ cur ∨ x ∈ new) := by
  induction new with
  | nil => intro cur x; simp [addToSetEach]
  | cons e new ih =>
    intro cur x
    have : addToSetEach cur (e :: new) = addToSetEach (addIfAbsent cur e) new := rfl
    rw [this, ih, mem_addIfAbsent]
    simp [or_assoc]

theorem nodup_addToSetEach (new : List String) :
    ∀ cur : List String, cur.Nodup → (addToSetEach cur new).Nodup := by
  induction new with
  | nil => intro cur h; exact h
  | cons e new ih =>
    intro cur h
    exact ih _ (nodup_addIfAbsent cur e h)

/-! ## Lemmas: the upsert filter keeps matching the updated document -/

theorem docMatches_applyLeadUpdate (item : LeadItem) (now : Nat)
    (d : StoredDoc) :
    docMatches (upsertFilter item) (applyLeadUpdate item now d) = true := by
  unfold upsertFilter
  cases hw : normWebsite item with
  | some w => simp [docMatches, applyLeadUpdate, hw]
  | none => simp [docMatches, applyLeadUpdate]

theorem docMatches_created (k : UpsertKey) (d : StoredDoc) (c : Nat) :
    docMatches k { d with created_at := c } = docMatches k d := by
  cases k <;> rfl

theorem find?_updateFirst (p : StoredDoc → Bool) (f : StoredDoc → StoredDoc) :
    ∀ (coll : List StoredDoc) (d : StoredDoc),
    coll.find? p = some d → p (f d) = true →
    (updateFirst p f coll).find? p = some (f d) := by
  intro coll
  induction coll with
  | nil => intro d h _; simp at h
  | cons d0 ds ih =>
    intro d h hf
    cases hp : p d0 with
    | true =>
      rw [List.find?_cons, hp] at h
      cases h
      simp [updateFirst, hp, List.find?_cons, hf]
    | false =>
      rw [List.find?_cons, hp] at h
      simp only [updateFirst, hp, Bool.false_eq_true, if_false]
      rw [List.find?_cons, hp]
      exact ih d h hf

/-- C5: the upsert filter is the website exactly when it is present and
non-empty (an empty string counts as absent), and the pair
(company_name, location) otherwise; after processing an item, the
document stored under that key carries the item's scalar fields (sector,
location, company_name, phone, website, about, source) and its email
set is the union of the previously stored emails and the item's emails,
without introducing duplicates. -/
theorem mongo_upsert_semantics (coll : List StoredDoc) (item : LeadItem)
    (item_created now : Nat) :
    (∀ w, item.website = some w → w ≠ "" →
      upsertFilter item = .byWebsite w)
    ∧ ((item.website = none ∨ item.website = some "") →
      upsertFilter item = .byNameLocation item.company_name item.location)
    ∧ (∃ d', (processItem coll item item_created now).find?
          (docMatches (upsertFilter item)) = some d'
        ∧ d'.sector = item.sector ∧ d'.location = item.location
        ∧ d'.company_name = item.company_name ∧ d'.phone = item.phone
        ∧ d'.website = normWebsite item ∧ d'.about = item.about.getD ""
        ∧ d'.source = item.source
        ∧ (∀ e, e ∈ d'.emails ↔ e ∈ oldEmails coll item ∨ e ∈ item.emails)
        ∧ ((oldEmails coll item).Nodup → d'.emails.Nodup)) := by
  refine ⟨?_, ?_, ?_⟩
  · intro w hw hne
    simp [upsertFilter, normWebsite, hw, hne]
  · rintro (hw | hw) <;> simp [upsertFilter, normWebsite, hw]
  · cases hf : coll.find? (docMatches (upsertFilter item)) with
    | some d =>
      refine ⟨applyLeadUpdate item now d, ?_, rfl, rfl, rfl, rfl, rfl, rfl, rfl, ?_, ?_⟩
      · have hm := docMatches_applyLeadUpdate item now d
        have := find?_updateFirst (docMatches (upsertFilter item))
          (applyLeadUpdate item now) coll d hf hm
        simp only [processItem, hf, Option.isSome_some, if_true]
        exact this
      · intro e
        have : oldEmails coll item = d.emails := by
          simp [oldEmails, hf]
        rw [this]
        exact mem_addToSetEach item.emails d.emails e
      · intro hnd
        have : oldEmails coll item = d.emails := by
          simp [oldEmails, hf]
        rw [this] at hnd
        exact nodup_addToSetEach item.emails d.emails hnd
    | none =>
      refine ⟨{ applyLeadUpdate item now emptyStoredDoc with
                created_at := item_created }, ?_, rfl, rfl, rfl, rfl, rfl,
              rfl, rfl, ?_, ?_⟩
      · simp only [processItem, hf, Option.isSome_none, Bool.false_eq_true,
          if_false]
        rw [List.find?_append, hf]
        simp only [Option.none_or, List.find?_cons]
        rw [docMatches_created, docMatches_applyLeadUpdate]
      · intro e
        have : oldEmails coll item = [] := by
          simp [oldEmails, hf]
        rw [this]
        simpa using (mem_addToSetEach item.emails [] e)
      · intro _
        exact nodup_addToSetEach item.emails [] List.nodup_nil

/-- Witness for C5: the sample item keys on its website and stores a
deduplicated email set. -/
theorem mongo_upsert_semantics_witness :
    upsertFilter sampleItem = .byWebsite "https://acme.example" :=
  (mongo_upsert_semantics [] sampleItem 0 1).1 "https://acme.example" rfl
    (by decide)

/-! ## Lemmas: classifier response parsing -/

theorem mkMatchedResult_name (e : LLMEntry) (c : LeadDoc) :
    (mkMatchedResult e c).company_name = entryNameOf e := rfl

theorem mkDefaultResult_name (c : LeadDoc) (r : String) :
    (mkDefaultResult c r).company_name = companyNameOf c := rfl

theorem countP_matchedResults (companies : List LeadDoc) (n : String) :
    ∀ entries : List LLMEntry,
    (matchedResults companies entries).countP (fun r => r.company_name == n)
    = entries.countP (fun e =>
        (entryNameOf e == n)
        && (companyMapLookup companies (entryNameOf e)).isSome) := by
  intro entries
  induction entries with
  | nil => rfl
  | cons e es ih =>
    unfold matchedResults at ih ⊢
    rw [List.filterMap_cons]
    cases hl : companyMapLookup companies (entryNameOf e) with
    | none =>
      rw [List.countP_cons]
      simp [hl, ih]
    | some c =>
      rw [List.countP_cons]
      simp only [hl, Option.map_some']
      rw [List.countP_cons]
      simp [mkMatchedResult_name, ih]

theorem countP_entries_isSome (companies : List LeadDoc) (n : String)
    (hn : (companyMapLookup companies n).isSome = true)
    (entries : List LLMEntry) :
    entries.countP (fun e =>
      (entryNameOf e == n)
      && (companyMapLookup companies (entryNameOf e)).isSome)
    = entries.countP (fun e => entryNameOf e == n) := by
  apply List.countP_congr
  intro e _
  constructor
  · intro h
    exact ((Bool.and_eq_true _ _).mp h).1
  · intro h
    have he : entryNameOf e = n := by simpa using h
    rw [Bool.and_eq_true]
    exact ⟨h, by rw [he]; exact hn⟩

theorem countP_eq_count_map {α : Type} (f : α → String) (l : List α)
    (n : String) :
    l.countP (fun a => f a == n) = (l.map f).count n := by
  induction l with
  | nil => rfl
  | cons a l ih =>
    rw [List.countP_cons, List.map_cons, List.count_cons, ih]

theorem companyMapLookup_isSome_of_mem (companies : List LeadDoc)
    (c : LeadDoc) (hc : c ∈ companies) :
    (companyMapLookup companies (companyNameOf c)).isSome = true := by
  unfold companyMapLookup
  rw [List.find?_isSome]
  exact ⟨c, List.mem_reverse.mpr hc, by simp⟩

theorem mem_matchedNames (companies : List LeadDoc) (n : String)
    (hn : (companyMapLookup companies n).isSome = true) :
    ∀ entries : List LLMEntry,
    (n ∈ (matchedResults companies entries).map (·.company_name)
      ↔ n ∈ entries.map entryNameOf) := by
  intro entries
  induction entries with
  | nil => simp [matchedResults]
  | cons e es ih =>
    unfold matchedResults at ih ⊢
    rw [List.filterMap_cons]
    cases hl : companyMapLookup companies (entryNameOf e) with
    | none =>
      simp only [hl, Option.map_none', List.map_cons, List.mem_cons]
      constructor
      · intro h
        exact Or.inr (ih.mp h)
      · rintro (rfl | h)
        · rw [hl] at hn
          exact absurd hn (by simp)
        · exact ih.mpr h
    | some c =>
      simp only [hl, Option.map_some', List.map_cons, List.mem_cons,
        mkMatchedResult_name]
      rw [ih]

theorem countP_missingResults (processedNames : List String) (n : String) :
    ∀ companies : List LeadDoc,
    (∀ c ∈ companies, c.company_name.isSome = true) →
    (missingResults companies processedNames).countP
      (fun r => r.company_name == n)
    = companies.countP (fun c =>
        (companyNameOf c == n)
        && !processedNames.contains (companyNameOf c)) := by
  intro companies
  induction companies with
  | nil => intro _; rfl
  | cons c cs ih =>
    intro hall
    obtain ⟨m, hm⟩ := Option.isSome_iff_exists.mp (hall c (by simp))
    have hcs : ∀ x ∈ cs, x.company_name.isSome = true :=
      fun x hx => hall x (by simp [hx])
    unfold missingResults at ih ⊢
    rw [List.filter_cons]
    cases hpn : processedNames.contains m with
    | true =>
      have hcond : (match c.company_name with
          | some n' => !processedNames.contains n'
          | none => true) = false := by
        rw [hm]
        simp [List.mem_of_elem_eq_true hpn]
      rw [hcond]
      simp only [Bool.false_eq_true, if_false]
      rw [ih hcs, List.countP_cons]
      have hmem := List.mem_of_elem_eq_true hpn
      simp [companyNameOf, hm, hpn, hmem]
    | false =>
      have hcond : (match c.company_name with
          | some n' => !processedNames.contains n'
          | none => true) = true := by
        rw [hm]
        simp [show m ∉ processedNames by simpa using hpn]
      rw [hcond]
      simp only [if_true]
      rw [List.map_cons, List.countP_cons, List.countP_cons, ih hcs]
      simp [mkDefaultResult_name, companyNameOf, hm,
            show m ∉ processedNames by simpa using hpn]

theorem countP_missing_in (companies : List LeadDoc) (n : String)
    (processedNames : List String)
    (hnp : processedNames.contains n = true) :
    companies.countP (fun c =>
      (companyNameOf c == n)
      && !processedNames.contains (companyNameOf c)) = 0 := by
  rw [List.countP_eq_zero]
  intro c _
  by_cases h : (companyNameOf c == n) = true
  · have he : companyNameOf c = n := by simpa using h
    simp [h, he, List.mem_of_elem_eq_true hnp]
  · simp [h]

theorem countP_missing_notin (companies : List LeadDoc) (n : String)
    (processedNames : List String)
    (hnp : processedNames.contains n = false) :
    companies.countP (fun c =>
      (companyNameOf c == n)
      && !processedNames.contains (companyNameOf c))
    = companies.countP (fun c => companyNameOf c == n) := by
  apply List.countP_congr
  intro c _
  by_cases h : (companyNameOf c == n) = true
  · have he : companyNameOf c = n := by simpa using h
    simp [h, he, show n ∉ processedNames by simpa using hnp]
  · simp [h]

/-- C3 (amended): a JSON decode error degrades every company of the batch
to a default row with belongs false, confidence 0 and a parse-error
reason, without raising; a parsed non-array raises ValueError out of
_parse_llm_response, which the batch loop of filter_by_sector catches,
recording a default row with belongs false, confidence 0 and the error
reason for every company of the batch; for an array response, provided
every input company has a name, input names are distinct and response
names are distinct, exactly one result is produced per input company
(duplicate response names each produce a row, which is what the original
claim's unconditional exactly-one wording misses), and every company
missing from the response gets the LLM-response-missing default row with
belongs false and confidence 0. -/
theorem parse_llm_response_amended (companies : List LeadDoc)
    (entries : List LLMEntry) (msg : String)
    (hall : ∀ c ∈ companies, c.company_name.isSome = true)
    (hcn : (companies.map companyNameOf).Nodup)
    (hen : (entries.map entryNameOf).Nodup) :
    (∃ rs, parseLLMResponse (.decodeError msg) companies = .ok rs
      ∧ rs.length = companies.length
      ∧ ∀ r ∈ rs, r.belongs_to_sector = false ∧ r.confidence = 0
          ∧ r.reason = "JSON parse error: " ++ msg)
    ∧ (parseLLMResponse .nonList companies = .error "Expected JSON array"
      ∧ (processBatch companies .nonList).length = companies.length
      ∧ ∀ r ∈ processBatch companies .nonList,
          r.belongs_to_sector = false ∧ r.confidence = 0
          ∧ r.reason = "Error: " ++ "Expected JSON array")
    ∧ (∃ rs, parseLLMResponse (.list entries) companies = .ok rs
      ∧ (∀ c ∈ companies,
          rs.countP (fun r => r.company_name == companyNameOf c) = 1)
      ∧ (∀ c ∈ companies,
          companyNameOf c ∉ entries.map entryNameOf →
          ∃ r ∈ rs, r.company_name = companyNameOf c
            ∧ r.belongs_to_sector = false ∧ r.confidence = 0
            ∧ r.reason = "LLM response missing")) := by
  refine ⟨?_, ?_, ?_⟩
  · refine ⟨_, rfl, by simp [parseLLMResponse], ?_⟩
    intro r hr
    simp only [parseLLMResponse, List.mem_map] at hr
    obtain ⟨c, _, rfl⟩ := hr
    exact ⟨rfl, rfl, rfl⟩
  · refine ⟨rfl, by simp [processBatch, parseLLMResponse], ?_⟩
    intro r hr
    simp only [processBatch, parseLLMResponse, List.mem_map] at hr
    obtain ⟨c, _, rfl⟩ := hr
    exact ⟨rfl, rfl, rfl⟩
  · refine ⟨_, rfl, ?_, ?_⟩
    · intro c hc
      have hn := companyMapLookup_isSome_of_mem companies c hc
      rw [List.countP_append, countP_matchedResults,
          countP_entries_isSome companies (companyNameOf c) hn,
          countP_eq_count_map,
          countP_missingResults _ (companyNameOf c) companies hall]
      by_cases hmem : companyNameOf c ∈ entries.map entryNameOf
      · have hcount : (entries.map entryNameOf).count (companyNameOf c) = 1 := by
          have h1 := List.nodup_iff_count_le_one.mp hen (companyNameOf c)
          have h2 := List.count_pos_iff.mpr hmem
          omega
        have hpn : ((matchedResults companies entries).map
            (·.company_name)).contains (companyNameOf c) = true :=
          List.elem_eq_true_of_mem
            ((mem_matchedNames companies (companyNameOf c) hn entries).mpr hmem)
        rw [countP_missing_in _ _ _ hpn, hcount]
      · have hcount : (entries.map entryNameOf).count (companyNameOf c) = 0 :=
          List.count_eq_zero.mpr hmem
        have hpn : ((matchedResults companies entries).map
            (·.company_name)).contains (companyNameOf c) = false := by
          have : companyNameOf c ∉ (matchedResults companies entries).map
              (·.company_name) := fun hx =>
            hmem ((mem_matchedNames companies (companyNameOf c) hn entries).mp hx)
          simpa using this
        rw [countP_missing_notin _ _ _ hpn, hcount,
            countP_eq_count_map companyNameOf companies]
        have h1 := List.nodup_iff_count_le_one.mp hcn (companyNameOf c)
        have hmm : companyNameOf c ∈ companies.map companyNameOf :=
          List.mem_map.mpr ⟨c, hc, rfl⟩
        have h2 := List.count_pos_iff.mpr hmm
        omega
    · intro c hc hmiss
      have hn := companyMapLookup_isSome_of_mem companies c hc
      refine ⟨mkDefaultResult c "LLM response missing", ?_, rfl, rfl, rfl, rfl⟩
      rw [List.mem_append]
      right
      unfold missingResults
      refine List.mem_map.mpr ⟨c, ?_, rfl⟩
      refine List.mem_filter.mpr ⟨hc, ?_⟩
      obtain ⟨m, hm⟩ := Option.isSome_iff_exists.mp (hall c hc)
      have hpn : ((matchedResults companies entries).map
          (·.company_name)).contains (companyNameOf c) = false := by
        have : companyNameOf c ∉ (matchedResults companies entries).map
            (·.company_name) := fun hx =>
          hmiss ((mem_matchedNames companies (companyNameOf c) hn entries).mp hx)
        simpa using this
      have hmn : companyNameOf c = m := by simp [companyNameOf, hm]
      rw [hmn] at hpn
      rw [hm]
      simp [show m ∉ (matchedResults companies entries).map (·.company_name)
        by simpa using hpn]

/-- Witness for C3: one company, one matching decision: the decode-error
path still produces one default row per company. -/
theorem parse_llm_response_amended_witness :
    ∃ rs, parseLLMResponse (.decodeError "m") [sampleLeadDoc] = .ok rs
      ∧ rs.length = [sampleLeadDoc].length
      ∧ ∀ r ∈ rs, r.belongs_to_sector = false ∧ r.confidence = 0
          ∧ r.reason = "JSON parse error: " ++ "m" :=
  (parse_llm_response_amended [sampleLeadDoc] [sampleEntry] "m"
    (by decide) (by decide) (by decide)).1

/-- Counterexample for C3 as stated: a response that repeats the same
decision twice yields two results for a single input company, so the
parsing step does not always return exactly one result per input
company. -/
theorem parse_llm_duplicate_counterexample :
    (parseLLMResponse (.list [sampleEntry, sampleEntry])
        [sampleLeadDoc]).map List.length = .ok 2
    ∧ [sampleLeadDoc].length = 1 := by
  exact ⟨rfl, rfl⟩

end LinkedInScrape
